import Mathlib

/-!
Shallow embedding of the Axis Mundi core (internal/server/server.go and the
RegistryItem data model of internal/workspace/workspace.go), together with
theorems settling the specification claims about the broadcast hub, the
scheduler (runPoller), the status overlay (enrichItems / handleStatus), the
mode controller (handleMode) and the persistence store (loadState / saveState).

Machine integers of the Go code are modelled as Int/Nat (no overflow is
reachable in the modelled code paths: the countdown stays in [0, 60]).
The wire value "AUTO" is the spec's AUTOMATED mode.
-/

/-- A server-sent-events message: an optional event kind and a data payload
(server.go, type SSEMessage). Payload bytes are modelled as a String. -/
structure SSEMessage where
  Event : String
  Data : String
deriving DecidableEq, Repr

/-- Capacity of one subscriber mailbox: server.go handleEvents allocates
each client channel with buffer 10. -/
def mailboxCap : Nat := 10

/-- The non-blocking send used by broadcastTick and broadcastRegistry
(the select with a default branch): if the mailbox has free capacity the
message is appended, otherwise it is dropped and the mailbox is unchanged. -/
def trySend (mb : List SSEMessage) (msg : SSEMessage) : List SSEMessage :=
  if mb.length < mailboxCap then mb ++ [msg] else mb

/-- Fan-out of one message over the registered subscriber mailboxes
(the loop over s.clients in broadcastTick / broadcastRegistry): each mailbox
receives the message by a non-blocking trySend, independently of the others. -/
def publish (clients : List (List SSEMessage)) (msg : SSEMessage) :
    List (List SSEMessage) :=
  clients.map (fun mb => trySend mb msg)

/-- A unified registry record (workspace.go, type RegistryItem), with the
Status field that server.go's enrichItems writes. The Go field named Type is
rendered typ, since Type is a Lean keyword. -/
structure RegistryItem where
  ID : String
  typ : String
  Title : String
  Snippet : String
  Status : String
deriving DecidableEq, Repr

/-- The status overlay (server.go, field s.statuses : map[string]string),
modelled as an association list with unique keys maintained by insertStatus. -/
abbrev StatusMap := List (String × String)

/-- Map lookup: statuses[id]. -/
def lookupStatus : StatusMap → String → Option String
  | [], _ => none
  | p :: m, k => if p.1 = k then some p.2 else lookupStatus m k

/-- Map write: statuses[id] = v (creates or replaces the entry). -/
def insertStatus (m : StatusMap) (k v : String) : StatusMap :=
  (k, v) :: m.filter (fun p => decide (p.1 ≠ k))

/-- server.go enrichItems: walk the fetched items in order; an item whose id
is in the overlay gets that status; otherwise an item of type "keep" gets the
default status "Keep" which is also recorded in the overlay (marking the
overlay modified); any other item is passed through unchanged. Returns the
enriched items, the updated overlay, and the modified flag. -/
def enrichItems : StatusMap → List RegistryItem → List RegistryItem × StatusMap × Bool
  | st, [] => ([], st, false)
  | st, item :: rest =>
    match lookupStatus st item.ID with
    | some v =>
      let r := enrichItems st rest
      ({ item with Status := v } :: r.1, r.2)
    | none =>
      if item.typ = "keep" then
        let r := enrichItems (insertStatus st item.ID "Keep") rest
        ({ item with Status := "Keep" } :: r.1, r.2.1, true)
      else
        let r := enrichItems st rest
        (item :: r.1, r.2)

/-- Whether some fetched item of type "keep" carries the given id. -/
def hasKeepId (items : List RegistryItem) (k : String) : Bool :=
  items.any (fun it => it.ID == k && it.typ == "keep")

/-- The fields of a registry item other than Status. -/
def frameOf (x : RegistryItem) : String × String × String × String :=
  (x.ID, x.typ, x.Title, x.Snippet)

theorem lookupStatus_insert_self (m : StatusMap) (k v : String) :
    lookupStatus (insertStatus m k v) k = some v := by
  simp [lookupStatus, insertStatus]

theorem lookupStatus_cons (p : String × String) (m : StatusMap) (k : String) :
    lookupStatus (p :: m) k = if p.1 = k then some p.2 else lookupStatus m k := rfl

theorem lookupStatus_filter_ne (m : StatusMap) (k k' : String) (h : k' ≠ k) :
    lookupStatus (m.filter (fun p => decide (p.1 ≠ k))) k' = lookupStatus m k' := by
  induction m with
  | nil => rfl
  | cons p m ih =>
    rw [List.filter_cons]
    by_cases hp : p.1 = k
    · have hp' : ¬ p.1 = k' := fun hk => h (by rw [← hk]; exact hp)
      have hd : (decide (p.1 ≠ k)) = false := by simp [hp]
      rw [hd, if_neg (by simp), ih, lookupStatus_cons, if_neg hp']
    · have hd : (decide (p.1 ≠ k)) = true := by simp [hp]
      rw [hd, if_pos rfl, lookupStatus_cons, lookupStatus_cons, ih]

theorem lookupStatus_insert_ne (m : StatusMap) (k v k' : String) (h : k' ≠ k) :
    lookupStatus (insertStatus m k v) k' = lookupStatus m k' := by
  have hk : ¬ k = k' := fun hk => h hk.symm
  simp only [insertStatus]
  rw [lookupStatus_cons, if_neg hk]
  exact lookupStatus_filter_ne m k k' h

/-- C10 helper: enrichment preserves everything but Status, pointwise. -/
theorem enrich_map_frame (st : StatusMap) (items : List RegistryItem) :
    (enrichItems st items).1.map frameOf = items.map frameOf := by
  induction items generalizing st with
  | nil => simp [enrichItems]
  | cons item rest ih =>
    cases h : lookupStatus st item.ID with
    | some v => simp [enrichItems, h, frameOf, ih]
    | none =>
      by_cases ht : item.typ = "keep"
      · simp [enrichItems, h, ht, frameOf, ih]
      · simp [enrichItems, h, ht, frameOf, ih]

/-- C10: For every input list of registry items, enrichItems returns a list
of the same length in the same order, and each output item's ID, Type, Title
and Snippet fields equal those of the input item at the same position — only
the Status field may differ. -/
theorem enrich_frame_preserved (st : StatusMap) (items : List RegistryItem) :
    (enrichItems st items).1.length = items.length ∧
    ∀ i : Nat, ((enrichItems st items).1[i]?).map frameOf =
      (items[i]?).map frameOf := by
  have h := enrich_map_frame st items
  constructor
  · have := congrArg List.length h
    simpa using this
  · intro i
    have h1 : ((enrichItems st items).1.map frameOf)[i]? =
        (items.map frameOf)[i]? := by rw [h]
    simpa [List.getElem?_map] using h1

/-- C1: For every publish over any set of registered subscribers, each
subscriber whose mailbox has free capacity receives the message appended to
its mailbox, a subscriber whose mailbox is full has that one message dropped
with its mailbox left unchanged, and each subscriber's outcome depends only
on its own mailbox (delivery to every other subscriber is unaffected).
Non-blocking delivery is the total drop-on-full semantics of trySend, the
select-with-default of broadcastTick / broadcastRegistry. -/
theorem publish_best_effort (clients : List (List SSEMessage)) (msg : SSEMessage) :
    (publish clients msg).length = clients.length ∧
    (∀ i : Nat, (publish clients msg)[i]? = (clients[i]?).map (fun mb => trySend mb msg)) ∧
    (∀ mb : List SSEMessage,
      (mb.length < mailboxCap → trySend mb msg = mb ++ [msg]) ∧
      (¬ mb.length < mailboxCap → trySend mb msg = mb)) := by
  refine ⟨by simp [publish], ?_, ?_⟩
  · intro i
    simp [publish, List.getElem?_map]
  · intro mb
    constructor
    · intro hfree
      simp [trySend, hfree]
    · intro hfull
      simp [trySend, hfull]

/-- Witness for publish_best_effort at a concrete subscriber set: one
mailbox with room, one full mailbox of 10 messages. -/
theorem publish_best_effort_witness :
    trySend [] ⟨"", "snap"⟩ = [] ++ [⟨"", "snap"⟩] ∧
    trySend (List.replicate 10 ⟨"tick", "d"⟩) ⟨"", "snap"⟩ =
      List.replicate 10 ⟨"tick", "d"⟩ := by
  have h := publish_best_effort [[], List.replicate 10 ⟨"tick", "d"⟩] ⟨"", "snap"⟩
  exact ⟨((h.2.2) []).1 (by decide),
    ((h.2.2) (List.replicate 10 ⟨"tick", "d"⟩)).2 (by decide)⟩

/-- Scheduler state for runPoller (server.go): the countdown, the status
overlay used by enrichItems during a snapshot broadcast, and the observable
trace of the loop — tick event payloads published so far (seconds_remaining
values, in order), the number of snapshot publishes, and the number of
provider fetch attempts. -/
structure PollState where
  remaining : Int
  statuses : StatusMap
  ticks : List Int
  snapshots : Nat
  fetches : Nat
deriving DecidableEq, Repr

/-- server.go broadcastRegistry: attempt a provider fetch
(ws.ListRegistryItems); on failure only log and return — no enrichment, no
snapshot publish; on success enrich the fetched items (updating the overlay)
and publish the snapshot to all subscribers. The fetch outcome is passed in
as an Option: none models a fetch error. -/
def broadcastRegistry (fetched : Option (List RegistryItem)) (st : PollState) : PollState :=
  match fetched with
  | none => { st with fetches := st.fetches + 1 }
  | some items =>
    { st with
      fetches := st.fetches + 1
      statuses := (enrichItems st.statuses items).2.1
      snapshots := st.snapshots + 1 }

/-- One tick of server.go runPoller: read the mode; if AUTO, decrement the
countdown, publish a tick event carrying the remaining count, and when the
countdown reaches zero run broadcastRegistry and reset the countdown to 60;
otherwise (MANUAL) hold the countdown at 60 and do nothing else. -/
def pollTick (mode : String) (fetched : Option (List RegistryItem)) (st : PollState) :
    PollState :=
  if mode = "AUTO" then
    let r := st.remaining - 1
    let st1 := { st with remaining := r, ticks := st.ticks ++ [r] }
    if r ≤ 0 then
      { broadcastRegistry fetched st1 with remaining := 60 }
    else st1
  else
    { st with remaining := 60 }

/-- n consecutive ticks under a fixed mode and fetch outcome. -/
def iterTicks (mode : String) (fetched : Option (List RegistryItem)) :
    Nat → PollState → PollState
  | 0, st => st
  | n + 1, st => iterTicks mode fetched n (pollTick mode fetched st)

/-- The poller's start state: countdown 60, nothing yet published. -/
def initPoll : PollState := ⟨60, [], [], 0, 0⟩

/-- A run of the poller over a per-tick mode trace: each tick reads the mode
current at that tick boundary (the polled, not event-driven, transition
detection of runPoller). -/
def pollRun (modes : List String) (fetched : Option (List RegistryItem))
    (st : PollState) : PollState :=
  modes.foldl (fun s m => pollTick m fetched s) st

set_option maxRecDepth 4000 in
/-- C2: From countdown 60 in AUTO mode, 60 consecutive ticks with no mode
change and a succeeding fetch yield exactly one snapshot publish, a tick
event carrying the remaining count (59, 58, ..., 0) on every one of the 60
ticks, and a countdown reset to 60. -/
theorem auto_sixty_ticks_one_snapshot :
    iterTicks "AUTO" (some []) 60 initPoll =
      ⟨60, [], (List.range 60).reverse.map (fun n => (n : Int)), 1, 1⟩ := by
  decide

/-- C6: If the provider fetch fails on the tick whose countdown reaches
zero, broadcastRegistry returns after logging: no snapshot is published, the
status overlay is untouched, the countdown is reset to 60 rather than
retried, and the tick is otherwise a normal step of the still-running loop
(only the tick event and the failed fetch attempt are recorded). -/
theorem fetch_failure_skips_snapshot (st : PollState) (h : st.remaining = 1) :
    pollTick "AUTO" none st =
      { st with remaining := 60, ticks := st.ticks ++ [0], fetches := st.fetches + 1 } := by
  cases st
  simp only at h
  simp [pollTick, broadcastRegistry, h]

/-- Witness for fetch_failure_skips_snapshot at the poller state one tick
before a snapshot, with empty trace. -/
theorem fetch_failure_skips_snapshot_witness :
    pollTick "AUTO" none ⟨1, [], [], 0, 0⟩ = ⟨60, [], [0], 0, 1⟩ := by
  have h := fetch_failure_skips_snapshot ⟨1, [], [], 0, 0⟩ rfl
  simpa using h

/-- C7: On a tick at which the mode is MANUAL the scheduler publishes no
tick event, attempts no fetch, publishes no snapshot, leaves the overlay
alone and holds the countdown at its reset value 60 (the whole state change
is remaining := 60); and a poller run observes each mode exactly at its tick
boundary: the run over modes ++ one more tick is the run over modes followed
by one pollTick reading that tick's mode. -/
theorem manual_tick_inert (st : PollState) (fetched : Option (List RegistryItem))
    (modes : List String) (m : String) :
    pollTick "MANUAL" fetched st = { st with remaining := 60 } ∧
    pollRun (modes ++ [m]) fetched st = pollTick m fetched (pollRun modes fetched st) := by
  constructor
  · simp [pollTick]
  · simp [pollRun, List.foldl_append]

/-- Overlay characterization of one enrichItems pass: a key keeps its prior
status if it had one, is defaulted to "Keep" exactly when some fetched item
of type "keep" carries it, and is otherwise absent. -/
theorem enrich_overlay_lookup (items : List RegistryItem) (st : StatusMap) (k : String) :
    lookupStatus (enrichItems st items).2.1 k =
      match lookupStatus st k with
      | some v => some v
      | none => if hasKeepId items k then some "Keep" else none := by
  induction items generalizing st with
  | nil =>
    cases h : lookupStatus st k <;> simp [enrichItems, hasKeepId, h]
  | cons item rest ih =>
    cases h : lookupStatus st item.ID with
    | some v =>
      have hout : (enrichItems st (item :: rest)).2.1 = (enrichItems st rest).2.1 := by
        simp [enrichItems, h]
      rw [hout, ih]
      cases hk : lookupStatus st k with
      | some w => rfl
      | none =>
        have hne : ¬ item.ID = k := fun he => by rw [he] at h; rw [h] at hk; cases hk
        simp [hasKeepId, List.any_cons, hne]
    | none =>
      by_cases ht : item.typ = "keep"
      · have hout : (enrichItems st (item :: rest)).2.1 =
            (enrichItems (insertStatus st item.ID "Keep") rest).2.1 := by
          simp [enrichItems, h, ht]
        rw [hout, ih]
        by_cases hk : k = item.ID
        · rw [hk, lookupStatus_insert_self, h]
          simp [hasKeepId, List.any_cons, ht]
        · rw [lookupStatus_insert_ne st item.ID "Keep" k hk]
          cases hs : lookupStatus st k with
          | some w => rfl
          | none =>
            have hne : ¬ item.ID = k := fun he => hk he.symm
            simp [hasKeepId, List.any_cons, hne]
      · have hout : (enrichItems st (item :: rest)).2.1 = (enrichItems st rest).2.1 := by
          simp [enrichItems, h, ht]
        rw [hout, ih]
        cases hs : lookupStatus st k with
        | some w => rfl
        | none => simp [hasKeepId, List.any_cons, ht]

/-- Output characterization used for C5: a fetched item of type "keep" whose
id is either not yet in the overlay or already defaulted to "Keep" comes out
of the pass with status "Keep". -/
theorem enrich_out_keep (items : List RegistryItem) (st : StatusMap) (i : Nat)
    (item : RegistryItem) (hi : items[i]? = some item) (ht : item.typ = "keep")
    (hst : lookupStatus st item.ID = none ∨ lookupStatus st item.ID = some "Keep") :
    ((enrichItems st items).1[i]?).map RegistryItem.Status = some "Keep" := by
  induction items generalizing st i with
  | nil => cases hi
  | cons hd rest ih =>
    cases i with
    | zero =>
      have hhd : hd = item := by simpa using hi
      subst hhd
      cases h : lookupStatus st hd.ID with
      | none => simp [enrichItems, h, ht]
      | some v =>
        have hv : v = "Keep" := by
          rcases hst with hn | hk
          · rw [h] at hn; cases hn
          · rw [h] at hk; exact (Option.some.injEq _ _).mp hk
        simp [enrichItems, h, hv]
    | succ j =>
      have hj : rest[j]? = some item := by simpa using hi
      cases h : lookupStatus st hd.ID with
      | some v =>
        have hout : (enrichItems st (hd :: rest)).1 =
            { hd with Status := v } :: (enrichItems st rest).1 := by
          simp [enrichItems, h]
        rw [hout]
        simpa using ih st j hj hst
      | none =>
        by_cases hk : hd.typ = "keep"
        · have hout : (enrichItems st (hd :: rest)).1 =
              { hd with Status := "Keep" } :: (enrichItems (insertStatus st hd.ID "Keep") rest).1 := by
            simp [enrichItems, h, hk]
          rw [hout]
          have hst' : lookupStatus (insertStatus st hd.ID "Keep") item.ID = none ∨
              lookupStatus (insertStatus st hd.ID "Keep") item.ID = some "Keep" := by
            by_cases he : item.ID = hd.ID
            · right; rw [he, lookupStatus_insert_self]
            · rw [lookupStatus_insert_ne st hd.ID "Keep" item.ID he]; exact hst
          simpa using ih (insertStatus st hd.ID "Keep") j hj hst'
        · have hout : (enrichItems st (hd :: rest)).1 = hd :: (enrichItems st rest).1 := by
            simp [enrichItems, h, hk]
          rw [hout]
          simpa using ih st j hj hst

/-- C5 counterexample: a record of type "doc" never previously assigned a
status gets no default label from an enrich pass — its status stays empty
and no overlay entry is recorded — so not every never-statused record is
assigned the fixed default. -/
theorem enrich_no_default_for_doc :
    (enrichItems [] [⟨"d1", "doc", "T", "S", ""⟩]).1 = [⟨"d1", "doc", "T", "S", ""⟩] ∧
    (enrichItems [] [⟨"d1", "doc", "T", "S", ""⟩]).2.1 = [] := by
  decide

theorem mem_of_idx (l : List RegistryItem) (i : Nat) (a : RegistryItem)
    (h : l[i]? = some a) : a ∈ l := by
  induction l generalizing i with
  | nil => cases h
  | cons hd tl ih =>
    cases i with
    | zero =>
      have : hd = a := by simpa using h
      exact this ▸ List.mem_cons_self hd tl
    | succ j => exact List.mem_cons_of_mem hd (ih j (by simpa using h))

/-- C5 amended: for all records of type "keep" never previously assigned a
status, a single enrich pass assigns each one the fixed default label "Keep"
and records it in the overlay, and that label is unchanged by a repeated
enrich pass absent an intervening status set for that id (records of other
types are passed through without a default). -/
theorem enrich_default_keep_stable (st : StatusMap) (items : List RegistryItem)
    (i : Nat) (item : RegistryItem) (hi : items[i]? = some item)
    (ht : item.typ = "keep") (hnew : lookupStatus st item.ID = none) :
    ((enrichItems st items).1[i]?).map RegistryItem.Status = some "Keep" ∧
    lookupStatus (enrichItems st items).2.1 item.ID = some "Keep" ∧
    ((enrichItems (enrichItems st items).2.1 items).1[i]?).map RegistryItem.Status = some "Keep" ∧
    lookupStatus (enrichItems (enrichItems st items).2.1 items).2.1 item.ID = some "Keep" := by
  have hmem : item ∈ items := mem_of_idx items i item hi
  have hkeep : hasKeepId items item.ID = true := by
    simp only [hasKeepId, List.any_eq_true]
    exact ⟨item, hmem, by simp [ht]⟩
  have h1 : lookupStatus (enrichItems st items).2.1 item.ID = some "Keep" := by
    rw [enrich_overlay_lookup, hnew]
    simp [hkeep]
  refine ⟨enrich_out_keep items st i item hi ht (Or.inl hnew), h1, ?_, ?_⟩
  · exact enrich_out_keep items (enrichItems st items).2.1 i item hi ht (Or.inr h1)
  · rw [enrich_overlay_lookup, h1]

/-- Witness for enrich_default_keep_stable at a single never-seen keep
note. -/
theorem enrich_default_keep_stable_witness :
    ((enrichItems [] [⟨"n1", "keep", "T", "S", ""⟩]).1[0]?).map RegistryItem.Status = some "Keep" ∧
    lookupStatus (enrichItems [] [⟨"n1", "keep", "T", "S", ""⟩]).2.1 "n1" = some "Keep" := by
  have h := enrich_default_keep_stable [] [⟨"n1", "keep", "T", "S", ""⟩] 0
    ⟨"n1", "keep", "T", "S", ""⟩ rfl rfl rfl
  exact ⟨h.1, h.2.1⟩

/-- The persisted document (server.go, type persistentState): a mode string
and the status overlay. Statuses is an Option: none models a JSON null /
absent map (a nil Go map, which the loader skips), some a present map. -/
structure PersistedState where
  Mode : String
  Statuses : Option StatusMap
deriving DecidableEq, Repr

/-- The server state relevant to mode, overlay and persistence (server.go,
fields s.mode and s.statuses, plus the document last written by saveState;
disk = none models no write yet). -/
structure ServerState where
  mode : String
  statuses : StatusMap
  disk : Option PersistedState
deriving DecidableEq, Repr

/-- The document serialized by server.go saveState: the current mode and
overlay (a non-nil Go map marshals to a JSON object, hence some). -/
def saveDoc (mode : String) (statuses : StatusMap) : PersistedState :=
  ⟨mode, some statuses⟩

/-- server.go saveState: write the current mode and overlay to disk,
overwriting any previous document. -/
def saveState (s : ServerState) : ServerState :=
  { s with disk := some (saveDoc s.mode s.statuses) }

/-- server.go handleMode with a nonempty set parameter: anything but AUTO or
MANUAL is rejected with HTTP 400 and no state change; a valid value updates
the mode, persists, and returns 200. -/
def setMode (s : ServerState) (m : String) : ServerState × Nat :=
  if m ≠ "AUTO" ∧ m ≠ "MANUAL" then (s, 400)
  else (saveState { s with mode := m }, 200)

/-- server.go handleMode with no set parameter: report the current mode. -/
def getMode (s : ServerState) : String := s.mode

/-- server.go handleStatus: an empty id or status is rejected with HTTP 400
and no state change; otherwise statuses[id] = status is written
unconditionally — with no vocabulary and no existence check — and the state
is persisted. -/
def handleStatus (s : ServerState) (id status : String) : ServerState × Nat :=
  if id = "" ∨ status = "" then (s, 400)
  else (saveState { s with statuses := insertStatus s.statuses id status }, 200)

/-- A sequence of set-mode calls applied in order. -/
def setModeSeq (s : ServerState) (ms : List String) : ServerState :=
  ms.foldl (fun st m => (setMode st m).1) s

theorem setMode_valid (s : ServerState) (m : String)
    (hm : m = "AUTO" ∨ m = "MANUAL") :
    (setMode s m).1 = ⟨m, s.statuses, some ⟨m, some s.statuses⟩⟩ := by
  cases s
  rcases hm with h | h <;> subst h <;> simp [setMode, saveState, saveDoc]

/-- C3: For every sequence of set-mode calls with valid values (AUTO or
MANUAL), a get-mode call after each set returns exactly the last value set,
and the persisted document after each set records that same mode (together
with the overlay current at that moment). -/
theorem set_mode_get_persist (s : ServerState) (ms : List String) (i : Nat)
    (hi : i < ms.length) (hv : ∀ m ∈ ms, m = "AUTO" ∨ m = "MANUAL") :
    getMode (setModeSeq s (ms.take (i + 1))) = ms[i] ∧
    (setModeSeq s (ms.take (i + 1))).disk =
      some ⟨ms[i], some (setModeSeq s (ms.take (i + 1))).statuses⟩ := by
  have htake : ms.take (i + 1) = ms.take i ++ [ms[i]] := by
    rw [List.take_succ]
    simp [List.getElem?_eq_getElem hi]
  have hstep : setModeSeq s (ms.take (i + 1)) =
      (setMode (setModeSeq s (ms.take i)) ms[i]).1 := by
    rw [htake]
    simp only [setModeSeq, List.foldl_append, List.foldl_cons, List.foldl_nil]
  have hm : ms[i] = "AUTO" ∨ ms[i] = "MANUAL" := hv ms[i] (List.getElem_mem hi)
  rw [hstep, setMode_valid _ _ hm]
  exact ⟨rfl, rfl⟩

/-- Witness for set_mode_get_persist: one valid set of MANUAL from the fresh
state. -/
theorem set_mode_get_persist_witness :
    getMode (setModeSeq ⟨"AUTO", [], none⟩ (["MANUAL"].take 1)) = "MANUAL" ∧
    (setModeSeq ⟨"AUTO", [], none⟩ (["MANUAL"].take 1)).disk =
      some ⟨"MANUAL", some []⟩ := by
  have h := set_mode_get_persist ⟨"AUTO", [], none⟩ ["MANUAL"] 0 (by decide) (by decide)
  exact ⟨h.1, h.2⟩

/-- The fixed status vocabulary the spec names ({Pending, Execute, Keep});
server.go contains no corresponding check. -/
def specStatusVocab : List String := ["Pending", "Execute", "Keep"]

/-- C4 counterexample: the label BOGUS is outside the fixed vocabulary, yet
handleStatus accepts it with HTTP 200 and writes it into the overlay — the
claimed UnknownLabel validation does not exist in the code. -/
theorem status_vocab_not_enforced :
    specStatusVocab.contains "BOGUS" = false ∧
    (handleStatus ⟨"AUTO", [], none⟩ "n1" "BOGUS").2 = 200 ∧
    lookupStatus (handleStatus ⟨"AUTO", [], none⟩ "n1" "BOGUS").1.statuses "n1" =
      some "BOGUS" := by
  decide

/-- C4 amended: a status-set call with an empty id or an empty label fails
with HTTP 400 and changes no state; any other label — with no vocabulary
check — unconditionally creates or replaces the overlay entry for that id
and triggers a persistence write of the updated state. -/
theorem handle_status_amended (s : ServerState) (id status : String) :
    (id = "" ∨ status = "" → handleStatus s id status = (s, 400)) ∧
    (id ≠ "" → status ≠ "" →
      handleStatus s id status =
        (⟨s.mode, insertStatus s.statuses id status,
          some ⟨s.mode, some (insertStatus s.statuses id status)⟩⟩, 200)) := by
  constructor
  · intro h
    simp only [handleStatus]
    rw [if_pos h]
  · intro h1 h2
    simp only [handleStatus]
    rw [if_neg (fun hc => hc.elim h1 h2)]
    cases s
    simp [saveState, saveDoc]

/-- Witness for handle_status_amended: a rejected empty id and an accepted
write of Execute. -/
theorem handle_status_amended_witness :
    handleStatus ⟨"AUTO", [], none⟩ "" "Keep" = (⟨"AUTO", [], none⟩, 400) ∧
    handleStatus ⟨"AUTO", [], none⟩ "n1" "Execute" =
      (⟨"AUTO", [("n1", "Execute")], some ⟨"AUTO", some [("n1", "Execute")]⟩⟩, 200) := by
  have ha := handle_status_amended ⟨"AUTO", [], none⟩ "" "Keep"
  have hb := handle_status_amended ⟨"AUTO", [], none⟩ "n1" "Execute"
  exact ⟨ha.1 (Or.inl rfl), hb.2 (by decide) (by decide)⟩

/-- The possible states of the persisted document file at startup: missing
(os.IsNotExist), unreadable or unparseable, or a parsed document. -/
inductive DiskFile where
  | absent
  | corrupt
  | valid (ps : PersistedState)
deriving DecidableEq, Repr

/-- server.go loadState: a missing or unparseable file only logs and leaves
the defaults; a parsed document restores the mode only when it is AUTO or
MANUAL, and the statuses only when the map is non-nil. -/
def loadState (s : ServerState) (f : DiskFile) : ServerState :=
  match f with
  | .absent => s
  | .corrupt => s
  | .valid ps =>
    let s1 := if ps.Mode = "AUTO" ∨ ps.Mode = "MANUAL" then { s with mode := ps.Mode } else s
    match ps.Statuses with
    | some m => { s1 with statuses := m }
    | none => s1

/-- server.go NewServer: defaults AUTO with an empty overlay, then attempts
to restore state from disk. -/
def NewServer (f : DiskFile) : ServerState := loadState ⟨"AUTO", [], none⟩ f

/-- C8: starting fresh with no state file, or with an unparseable one,
yields mode AUTO (the wire value of AUTOMATED) and an empty overlay without
crashing; and after a valid mode and overlay are saved, a restart that loads
the saved document restores exactly the saved mode and statuses (load after
save is the identity on the persisted fields). -/
theorem load_after_save_identity :
    (NewServer .absent).mode = "AUTO" ∧ (NewServer .absent).statuses = [] ∧
    (NewServer .corrupt).mode = "AUTO" ∧ (NewServer .corrupt).statuses = [] ∧
    ∀ (mode : String) (statuses : StatusMap), mode = "AUTO" ∨ mode = "MANUAL" →
      (NewServer (.valid (saveDoc mode statuses))).mode = mode ∧
      (NewServer (.valid (saveDoc mode statuses))).statuses = statuses := by
  refine ⟨rfl, rfl, rfl, rfl, ?_⟩
  intro mode statuses h
  rcases h with h | h <;> subst h <;> exact ⟨rfl, rfl⟩

/-- Witness for load_after_save_identity: reloading a saved MANUAL mode and
a one-entry overlay restores both. -/
theorem load_after_save_identity_witness :
    (NewServer (.valid (saveDoc "MANUAL" [("a", "Keep")]))).mode = "MANUAL" ∧
    (NewServer (.valid (saveDoc "MANUAL" [("a", "Keep")]))).statuses = [("a", "Keep")] := by
  exact load_after_save_identity.2.2.2.2 "MANUAL" [("a", "Keep")] (Or.inr rfl)

/-- The server operations that touch the mode or the overlay (handleMode
set, handleStatus, and an enrichItems pass over a provider fetch). -/
inductive SysEvent where
  | setMode (m : String)
  | setStatus (id label : String)
  | enrich (items : List RegistryItem)
deriving DecidableEq, Repr

/-- Server state instrumented with fetch history: mode and overlay as in
server.go, plus the ids ever seen in fetched inventory records (seen) and
the ids ever passed to an explicit status set (setIds) — ghost fields that
record provenance and influence nothing. -/
structure SysState where
  mode : String
  statuses : StatusMap
  seen : List String
  setIds : List String
deriving DecidableEq, Repr

/-- One server operation: handleMode validates AUTO/MANUAL, handleStatus
validates only non-emptiness and writes any id unconditionally, enrichItems
updates the overlay while its items' ids are recorded as seen. -/
def applyEvent (s : SysState) (e : SysEvent) : SysState :=
  match e with
  | .setMode m => if m = "AUTO" ∨ m = "MANUAL" then { s with mode := m } else s
  | .setStatus id label =>
    if id = "" ∨ label = "" then s
    else { s with statuses := insertStatus s.statuses id label, setIds := id :: s.setIds }
  | .enrich items =>
    { s with
      statuses := (enrichItems s.statuses items).2.1
      seen := items.map (fun it => it.ID) ++ s.seen }

/-- The fresh-start state of NewServer with no persisted document: mode
AUTO, empty overlay, nothing fetched. -/
def initSys : SysState := ⟨"AUTO", [], [], []⟩

/-- The server state reached by a sequence of operations from a fresh
start. -/
def runEvents (es : List SysEvent) : SysState := es.foldl applyEvent initSys

/-- C9 counterexample: one explicit status set for the id ghost — an id
never seen in any fetched inventory record (seen stays empty) — puts ghost
into the overlay, so an overlay key need not come from a fetch. -/
theorem overlay_ghost_key :
    lookupStatus (runEvents [.setStatus "ghost" "Keep"]).statuses "ghost" = some "Keep" ∧
    (runEvents [.setStatus "ghost" "Keep"]).seen = [] := by
  decide

theorem applyEvent_keys (s : SysState) (e : SysEvent)
    (hs : ∀ k, lookupStatus s.statuses k ≠ none → k ∈ s.seen ∨ k ∈ s.setIds) :
    ∀ k, lookupStatus (applyEvent s e).statuses k ≠ none →
      k ∈ (applyEvent s e).seen ∨ k ∈ (applyEvent s e).setIds := by
  intro k hk
  cases e with
  | setMode m =>
    by_cases hm : m = "AUTO" ∨ m = "MANUAL"
    · simp only [applyEvent, if_pos hm] at hk ⊢
      exact hs k hk
    · simp only [applyEvent, if_neg hm] at hk ⊢
      exact hs k hk
  | setStatus id label =>
    by_cases he : id = "" ∨ label = ""
    · simp only [applyEvent, if_pos he] at hk ⊢
      exact hs k hk
    · simp only [applyEvent, if_neg he] at hk ⊢
      by_cases hki : k = id
      · exact Or.inr (hki ▸ List.mem_cons_self id s.setIds)
      · rw [lookupStatus_insert_ne s.statuses id label k hki] at hk
        rcases hs k hk with h | h
        · exact Or.inl h
        · exact Or.inr (List.mem_cons_of_mem _ h)
  | enrich items =>
    simp only [applyEvent] at hk ⊢
    rw [enrich_overlay_lookup] at hk
    cases hsk : lookupStatus s.statuses k with
    | some v =>
      rcases hs k (by rw [hsk]; exact fun hc => Option.noConfusion hc) with h | h
      · exact Or.inl (List.mem_append_right _ h)
      · exact Or.inr h
    | none =>
      rw [hsk] at hk
      by_cases hkeep : hasKeepId items k = true
      · refine Or.inl (List.mem_append_left _ ?_)
        simp only [hasKeepId, List.any_eq_true] at hkeep
        rcases hkeep with ⟨it, hit, hprop⟩
        have hand : it.ID = k ∧ it.typ = "keep" := by simpa using hprop
        exact hand.1 ▸ List.mem_map_of_mem (fun x => x.ID) hit
      · rw [if_neg hkeep] at hk
        exact absurd rfl hk

theorem runEvents_keys_aux (es : List SysEvent) (s : SysState)
    (hs : ∀ k, lookupStatus s.statuses k ≠ none → k ∈ s.seen ∨ k ∈ s.setIds) :
    ∀ k, lookupStatus (es.foldl applyEvent s).statuses k ≠ none →
      k ∈ (es.foldl applyEvent s).seen ∨ k ∈ (es.foldl applyEvent s).setIds := by
  induction es generalizing s with
  | nil => simpa using hs
  | cons e es ih => exact fun k hk => ih (applyEvent s e) (applyEvent_keys s e hs) k hk

/-- C9 amended: in every state reachable from a fresh start, every key in
the status overlay either is the id of a record seen in a fetched inventory
record or was the id argument of an explicit status-set call; enrichment
alone never introduces a key not present in the records it processes, but
an explicit set may introduce any id. -/
theorem overlay_keys_provenance (es : List SysEvent) (k : String)
    (h : lookupStatus (runEvents es).statuses k ≠ none) :
    k ∈ (runEvents es).seen ∨ k ∈ (runEvents es).setIds := by
  have h0 : ∀ k, lookupStatus (initSys).statuses k ≠ none →
      k ∈ initSys.seen ∨ k ∈ initSys.setIds := fun _ hk => absurd rfl hk
  exact runEvents_keys_aux es initSys h0 k h

/-- Witness for overlay_keys_provenance: a keep note fetched once puts its
id in the overlay, and the id is accounted for. -/
theorem overlay_keys_provenance_witness :
    "k1" ∈ (runEvents [.enrich [⟨"k1", "keep", "T", "S", ""⟩]]).seen ∨
    "k1" ∈ (runEvents [.enrich [⟨"k1", "keep", "T", "S", ""⟩]]).setIds := by
  exact overlay_keys_provenance [.enrich [⟨"k1", "keep", "T", "S", ""⟩]] "k1" (by decide)
